import Mathlib

/-
  Verification development for the snapcraft lifecycle module
  (snapcraft/lifecycle.py).

  The executor (`_Executor.run` / `_Executor._run_step`), the packaging
  flag selection (`snap`), the reverse-dependency computation
  (`_reverse_dependency_tree`) and the clean orchestrator (`clean`) are
  shallowly embedded below.  External collaborators that are not part of
  the module (the plugin step operations, the per-part state store
  `should_step_run`, the collision detector `check_for_collisions`, the
  configuration object from `snapcraft.yaml`) are modelled as oracles
  recorded in the configuration value, following the interface
  description of the specification:
    - `SatState` models `pluginhandler`'s per-(part, step)
      `should_step_run` answer; a successful plugin invocation records
      state, turning the answer to `false` for that pair
      ("Modelled from the spec": the BuildPart State Store contract, since
      `pluginhandler.py` is not part of this module).
    - `Config.collision` models the outcome of
      `pluginhandler.check_for_collisions` over the full part set
      ("Modelled from the spec": the Collision Detector contract).
    - `Config.prep` / `Config.pluginOk` model the per-(part, step)
      `prepare_<step>` hook and plugin operation behaviour
      ("Modelled from the spec": the plugin operation interface).
    - part-name collections are modelled as finite sets of strings
      ("Modelled from the spec": the Project holds a *set* of Parts;
      `config.part_names` comes from the absent `snapcraft.yaml` module).

  The interpreter is fuel-indexed (the Python recursion
  `run -> _run_step -> run` is not structurally terminating; fuel
  decreases on every internal call), and it produces a trace of
  observable events together with the final state-store oracle and an
  optional fatal error, mirroring the exception behaviour of the source.
-/

/-- A build unit: `name` plus its `after` prerequisite list, in
configuration order (snapcraft.yaml `after` keyword). -/
structure BuildPart where
  name : String
  after : List String
deriving DecidableEq

/-- Behaviour of the optional `prepare_<step>` hook of a part for a given
step: the attribute may be missing (lookup raises `AttributeError`), the
hook body may itself raise `AttributeError`, it may raise some other
exception, or it may complete normally. -/
inductive PrepB where
  | missing
  | raisesAttr
  | raisesOther
  | ok
deriving DecidableEq

/-- The state-store oracle: `st p s = true` iff `should_step_run(s)` is
true for the part named `p`, i.e. the step still needs to run. -/
abbrev SatState := String → String → Bool

/-- The project configuration together with the behaviour oracles of the
external collaborators (see the header comment). -/
structure Config where
  parts : List BuildPart
  collision : Bool
  prep : String → String → PrepB
  pluginOk : String → String → Bool

/-- Source `common.COMMAND_ORDER`: the fixed, linearly ordered lifecycle. -/
def COMMAND_ORDER : List String := ["pull", "build", "stage", "strip"]

/-- The names of all configured parts, `config.part_names` as a set. -/
def configPartNames (cfg : Config) : Finset String :=
  (cfg.parts.map BuildPart.name).toFinset

/-- Source `config.part_prereqs(name)`: the direct `after` edges of the named
part, as a set of part names. -/
def partPrereqs (cfg : Config) (name : String) : Finset String :=
  match cfg.parts.find? (fun p => p.name = name) with
  | some p => p.after.toFinset
  | none => ∅

/-- Source `config.part_dependents(name)`: the parts that directly declare
`name` in their `after` list, in configuration order. -/
def partDependentsList (cfg : Config) (name : String) : List String :=
  (cfg.parts.filter (fun p => name ∈ p.after)).map BuildPart.name

/-- Observable events of an executor run. -/
inductive Event where
  | enterRun (recursed : Bool) (dirty : Finset String)
  | collisionCheck
  | prereqsUsed (recursed : Bool) (part : String) (eff : Finset String)
  | prereqNotice (part : String)
  | skip (part step : String)
  | prepareOk (part step : String)
  | plugin (part step : String)
  | meta
deriving DecidableEq

/-- Fatal errors of an executor run. -/
inductive RunError where
  | unknownPart
  | invalidStep
  | unsatisfiedPrereqs (step part : String) (prereqs : Finset String)
  | collisionError
  | hookError (part step : String)
  | pluginError (part step : String)
  | outOfFuel
deriving DecidableEq

/-- Result of a run fragment: emitted events, updated state oracle, and
an optional fatal error that aborted the fragment. -/
abbrev RunRes := List Event × SatState × Option RunError

/-- Prepend already-emitted events to a result. -/
def withTrace (tr0 : List Event) (r : RunRes) : RunRes :=
  (tr0 ++ r.1, r.2.1, r.2.2)

/-- Sequencing: on error the continuation is not executed (a raised
exception propagates). -/
def andThen (r : RunRes) (k : SatState → RunRes) : RunRes :=
  match r with
  | (tr, st, some e) => (tr, st, some e)
  | (tr, st, none) => withTrace tr (k st)

/-- Record a completed (part, step) in the state store: after a
successful plugin invocation `should_step_run` answers false. -/
def markDone (st : SatState) (p s : String) : SatState :=
  fun q t => if q = p ∧ t = s then false else st q t

/-- Lines 135-145 of `_run_step`: the satisfied-skip check, the
`contextlib.suppress(AttributeError)`-guarded `prepare_<step>` hook, and
the plugin operation `getattr(part, step)()`. -/
def execPhase (cfg : Config) (st : SatState) (part : BuildPart) (step : String) : RunRes :=
  if st part.name step = false then
    ([Event.skip part.name step], st, none)
  else if cfg.prep part.name step = PrepB.raisesOther then
    ([], st, some (RunError.hookError part.name step))
  else
    let tr0 : List Event :=
      if cfg.prep part.name step = PrepB.ok then [Event.prepareOk part.name step] else []
    if cfg.pluginOk part.name step then
      (tr0 ++ [Event.plugin part.name step], markDone st part.name step, none)
    else
      (tr0 ++ [Event.plugin part.name step], st, some (RunError.pluginError part.name step))

/-- The recursive-run oracle handed down into the per-part protocol: it
performs `self.run('stage', prereqs, recursed=True)`. -/
abbrev RecE := SatState → Finset String → RunRes

/-- Lines 116-133 of `_run_step`: the prerequisite check.  `prereqs` is
the (possibly dirty-restricted) prerequisite set.  Either fails with the
unsatisfied-prerequisite `RuntimeError`, or recursively stages the
prerequisites, or does nothing. -/
def prereqPhaseF (recE : RecE) (cfg : Config) (st : SatState) (step : String)
    (part : BuildPart) (names prereqs : Finset String) : RunRes :=
  if prereqs ≠ ∅ ∧ ¬ prereqs ⊆ names then
    if cfg.parts.any (fun q => if q.name ∈ prereqs then st q.name "stage" else false) then
      ([], st, some (RunError.unsatisfiedPrereqs step part.name prereqs))
    else ([], st, none)
  else if prereqs ≠ ∅ then
    withTrace [Event.prereqNotice part.name] (recE st prereqs)
  else ([], st, none)

/-- Source `_run_step(step, part, part_names, dirty, recursed)`: restrict the
prerequisites to `dirty` when recursed (line 117-118), run the
prerequisite check, then the skip/hook/plugin phase. -/
def runStepPartF (recE : RecE) (cfg : Config) (st : SatState) (step : String)
    (part : BuildPart) (names dirty : Finset String) (recursed : Bool) : RunRes :=
  let prereqs :=
    if recursed then partPrereqs cfg part.name ∩ dirty else partPrereqs cfg part.name
  withTrace [Event.prereqsUsed recursed part.name prereqs]
    (andThen (prereqPhaseF recE cfg st step part names prereqs)
      (fun st1 => execPhase cfg st1 part step))

/-- The inner loop of `run` (line 109-110): each active part in turn. -/
def runPartsF (recE : RecE) (cfg : Config) (step : String)
    (names dirty : Finset String) (recursed : Bool) :
    SatState → List BuildPart → RunRes
  | st, [] => ([], st, none)
  | st, p :: ps =>
      andThen (runStepPartF recE cfg st step p names dirty recursed)
        (fun st1 => runPartsF recE cfg step names dirty recursed st1 ps)

/-- The outer loop of `run` (line 106-110): for each lifecycle step up to
the target, run the collision detector first when the step is `stage`
(line 107-108), then every active part. -/
def runStepsF (recE : RecE) (cfg : Config) (parts : List BuildPart)
    (names dirty : Finset String) (recursed : Bool) :
    SatState → List String → RunRes
  | st, [] => ([], st, none)
  | st, s :: ss =>
      if s = "stage" then
        if cfg.collision then ([Event.collisionCheck], st, some RunError.collisionError)
        else
          withTrace [Event.collisionCheck]
            (andThen (runPartsF recE cfg s names dirty recursed st parts)
              (fun st1 => runStepsF recE cfg parts names dirty recursed st1 ss))
      else
        andThen (runPartsF recE cfg s names dirty recursed st parts)
          (fun st1 => runStepsF recE cfg parts names dirty recursed st1 ss)

/-- Line 103: the dirty set of an invocation, computed at entry over the
invocation's own active parts: those whose staging step still needs to
run. -/
def dirtyOf (st : SatState) (parts : List BuildPart) : Finset String :=
  ((parts.filter (fun p => st p.name "stage")).map BuildPart.name).toFinset

/-- Line 104/106: `COMMAND_ORDER[0 : index(step) + 1]`, or `none` when
the step is not a lifecycle step (Python raises `ValueError`). -/
def stepsUpTo (step : String) : Option (List String) :=
  match COMMAND_ORDER.indexOf? step with
  | some i => some (COMMAND_ORDER.take (i + 1))
  | none => none

/-- The body of `run` once the active part set is resolved: compute the
dirty set, iterate the steps, and finally `_create_meta` (line 112,
147-150): emit the manifest-generation event iff the target step is
`strip` and the active names equal the full project part names. -/
def runEBodyF (recE : RecE) (cfg : Config) (st : SatState) (step : String)
    (parts : List BuildPart) (names : Finset String) (recursed : Bool) : RunRes :=
  let dirty := dirtyOf st parts
  match stepsUpTo step with
  | none => ([], st, some RunError.invalidStep)
  | some steps =>
      withTrace [Event.enterRun recursed dirty]
        (match runStepsF recE cfg parts names dirty recursed st steps with
         | (tr, st1, some e) => (tr, st1, some e)
         | (tr, st1, none) =>
             (tr ++ (if step = "strip" ∧ names = configPartNames cfg
                     then [Event.meta] else []),
              st1, none))

/-- Source `_Executor.run(step, part_names, recursed)` (lines 95-112), fuel
indexed.  An empty or absent `part_names` selects all parts (Python
truthiness of line 96); a given set is validated against the configured
part names (`validate_parts`, spec §7 configuration errors). -/
def runE (cfg : Config) : Nat → SatState → String → Option (Finset String) → Bool → RunRes
  | 0, st, _, _, _ => ([], st, some RunError.outOfFuel)
  | n + 1, st, step, pno, recursed =>
      let recE : RecE := fun stq q => runE cfg n stq "stage" (some q) true
      match pno with
      | some names =>
          if names = ∅ then
            runEBodyF recE cfg st step cfg.parts (configPartNames cfg) recursed
          else if names ⊆ configPartNames cfg then
            runEBodyF recE cfg st step (cfg.parts.filter (fun p => p.name ∈ names))
              names recursed
          else ([], st, some RunError.unknownPart)
      | none => runEBodyF recE cfg st step cfg.parts (configPartNames cfg) recursed

/-- One accumulation of the loop in `_reverse_dependency_tree` (line
221-224): `dependents |= _reverse_dependency_tree(config, dependent)`
for each direct dependent, propagating a fuel failure of any recursive
call. -/
def unionSteps (g : String → Option (Finset String)) (l : List String)
    (init : Option (Finset String)) : Option (Finset String) :=
  l.foldl (fun acc d => acc.bind (fun s => (g d).map (fun s2 => s ∪ s2))) init

/-- Source `_reverse_dependency_tree(config, part_name)` (lines 219-226), fuel
indexed: the fuel bounds the recursion depth; the Python source has no
such bound, so an input needing unbounded depth makes the source recurse
forever and makes this embedding return `none` at every fuel. -/
def rdtFuel (cfg : Config) : Nat → String → Option (Finset String)
  | 0, _ => none
  | n + 1, p =>
      unionSteps (rdtFuel cfg n) (partDependentsList cfg p)
        (some (partDependentsList cfg p).toFinset)

/-- The loop body of `clean` (lines 293-298) over a suffix of
`config.all_parts`: an unnamed invocation cleans every part; a named
invocation cleans a named part together with all its reverse dependents
(`_clean_part_and_all_dependents`, lines 229-240) and skips the rest.
Each emitted pair is (cleaned part name, step argument). -/
def cleanPartEvents (cfg : Config) (fuel : Nat) (names : List String)
    (step : Option String) (p : BuildPart) : Option (List (String × Option String)) :=
  if names = [] then some [(p.name, step)]
  else if p.name ∈ names then
    (rdtFuel cfg fuel p.name).map (fun deps =>
      (p.name, step) ::
        (cfg.parts.filter (fun q => q.name ∈ deps)).map (fun q => (q.name, step)))
  else some []

def cleanEvents (cfg : Config) (fuel : Nat) (names : List String)
    (step : Option String) : List BuildPart → Option (List (String × Option String))
  | [] => some []
  | p :: ps =>
      (cleanPartEvents cfg fuel names step p).bind (fun evs1 =>
        (cleanEvents cfg fuel names step ps).map (fun evs2 => evs1 ++ evs2))

/-- Source `clean(parts, step)` (lines 284-300): validate the given part names
(`validate_parts`), then clean part by part.  The filesystem directory
reclamation (`_cleanup_common_directories`) is outside the claims and is
not modelled.  Result: the list of (part, step) clean invocations, or
`none` on a validation error or fuel exhaustion of the reverse-dependency
recursion. -/
def cleanModel (cfg : Config) (fuel : Nat) (names : List String)
    (step : Option String) : Option (List (String × Option String)) :=
  if names ≠ [] ∧ ¬ (∀ x ∈ names, x ∈ cfg.parts.map BuildPart.name) then none
  else cleanEvents cfg fuel names step cfg.parts

/-- Source `data.get('type', '')`: the project type, defaulting to the empty
string when the metadata has no type. -/
def snapTypeOf (t : Option String) : String := t.getD ""

/-- Lines 210-212 of `snap`: the flag list passed to `mksquashfs`. -/
def mksquashfs_args (snapType : String) : List String :=
  let base := ["-noappend", "-comp", "xz", "-no-xattrs"]
  if snapType ≠ "os" then base ++ ["-all-root"] else base

/-- The direct-dependent edge relation of the `after` graph: `q` is a
configured part that declares `p` in its `after` list. -/
def depStep (cfg : Config) (p q : String) : Prop := q ∈ partDependentsList cfg p

instance (cfg : Config) (p q : String) : Decidable (depStep cfg p q) := by
  unfold depStep; infer_instance

/-- Three-part chain: `a` after `b`, `b` after `c` (no collisions, all
hooks absent, all plugin operations succeed). -/
def cfgChain : Config where
  parts := [⟨"a", ["b"]⟩, ⟨"b", ["c"]⟩, ⟨"c", []⟩]
  collision := false
  prep := fun _ _ => PrepB.missing
  pluginOk := fun _ _ => true

/-- A state store in which no step of any part has run yet. -/
def stAllDirty : SatState := fun _ _ => true

/-- The chain configuration with a colliding staging area. -/
def cfgColl : Config where
  parts := [⟨"a", ["b"]⟩, ⟨"b", ["c"]⟩, ⟨"c", []⟩]
  collision := true
  prep := fun _ _ => PrepB.missing
  pluginOk := fun _ _ => true

/-- Two parts: `a` after `b`. -/
def cfgPair : Config where
  parts := [⟨"a", ["b"]⟩, ⟨"b", []⟩]
  collision := false
  prep := fun _ _ => PrepB.missing
  pluginOk := fun _ _ => true

/-- Two mutually dependent parts: a cyclic `after` graph (rejected by
the upstream YAML validation, but reachable by this module when handed
such a configuration). -/
def cfgCyc : Config where
  parts := [⟨"a", ["b"]⟩, ⟨"b", ["a"]⟩]
  collision := false
  prep := fun _ _ => PrepB.missing
  pluginOk := fun _ _ => true

/-- A single dependency-free part. -/
def cfgSolo : Config where
  parts := [⟨"w", []⟩]
  collision := false
  prep := fun _ _ => PrepB.missing
  pluginOk := fun _ _ => true

/-- A single part whose `prepare_<step>` hook exists but raises
`AttributeError` from inside its body. -/
def cfgHook : Config where
  parts := [⟨"w", []⟩]
  collision := false
  prep := fun _ _ => PrepB.raisesAttr
  pluginOk := fun _ _ => true

/-- A state store in which everything has already run: part `a` is fully
satisfied, part `b` is not. -/
def stOnlyB : SatState := fun p _ => if p = "a" then false else true

/-- A state store in which every step of every part is satisfied. -/
def stDone : SatState := fun _ _ => false

/-- An inert recursive-run oracle, used to instantiate per-function
lemmas at concrete inputs. -/
def dummyRec : RecE := fun st _ => ([], st, none)

/-- Trace scanner for the collision-check ordering property: once a
collision check has been seen (`seen = true`), staging plugin executions
are allowed; before one, they are not. -/
def stageGuardedFrom (seen : Bool) : List Event → Bool
  | [] => true
  | Event.collisionCheck :: rest => stageGuardedFrom true rest
  | Event.plugin _ s :: rest =>
      (decide (s ≠ "stage") || seen) && stageGuardedFrom seen rest
  | _ :: rest => stageGuardedFrom seen rest

/-- No staging step of any part is executed anywhere in the trace. -/
def noStageExec (tr : List Event) : Bool :=
  tr.all (fun e => match e with
    | Event.plugin _ s => decide (s ≠ "stage")
    | _ => true)

/-- The step-major reference trace of one lifecycle step over the active
parts, written from the specification: every part performs the step (or
its satisfied-skip) in turn. -/
def specPartPass (cfg : Config) (s : String) :
    SatState → List BuildPart → List Event × SatState
  | st, [] => ([], st)
  | st, p :: ps =>
      let r := execPhase cfg st p s
      let rest := specPartPass cfg s r.2.1 ps
      (Event.prereqsUsed false p.name ∅ :: (r.1 ++ rest.1), rest.2)

/-- The step-major reference trace, written from the specification: each
lifecycle step up to the target is executed for every active part before
any part advances to the next step, with the collision check opening the
staging step. -/
def specStepMajor (cfg : Config) (parts : List BuildPart) :
    SatState → List String → List Event × SatState
  | st, [] => ([], st)
  | st, s :: ss =>
      let head : List Event := if s = "stage" then [Event.collisionCheck] else []
      let r := specPartPass cfg s st parts
      let rest := specStepMajor cfg parts r.2 ss
      (head ++ (r.1 ++ rest.1), rest.2)

/-- The active part-name set an invocation of `run` resolves from its
`part_names` argument (lines 96-101): an absent or empty argument means
all configured parts. -/
def resolveNames (cfg : Config) : Option (Finset String) → Finset String
  | some s => if s = ∅ then configPartNames cfg else s
  | none => configPartNames cfg

/- ------------------------------------------------------------------ -/
/- Helper lemmas                                                       -/
/- ------------------------------------------------------------------ -/

lemma parts_any_stage_iff (cfg : Config) (st : SatState) (prereqs : Finset String) :
    (cfg.parts.any (fun q => if q.name ∈ prereqs then st q.name "stage" else false) = true) ↔
      ∃ q ∈ cfg.parts, q.name ∈ prereqs ∧ st q.name "stage" = true := by
  rw [List.any_eq_true]
  constructor
  · rintro ⟨q, hq, hcond⟩
    by_cases hm : q.name ∈ prereqs
    · exact ⟨q, hq, hm, by simpa [hm] using hcond⟩
    · simp [hm] at hcond
  · rintro ⟨q, hq, hm, hst⟩
    exact ⟨q, hq, by simp [hm, hst]⟩

/- ------------------------------------------------------------------ -/
/- Claims                                                              -/
/- ------------------------------------------------------------------ -/

/-- Claim C9: the flag list handed to the filesystem-image compressor
omits `-all-root` exactly when the project type is `os`, includes it for
every other type (including a missing type, which defaults to the empty
string), and always includes `-no-xattrs` and `-noappend`. -/
theorem c9_mksquashfs_flags (t : Option String) :
    ("-all-root" ∈ mksquashfs_args (snapTypeOf t) ↔ snapTypeOf t ≠ "os") ∧
    "-no-xattrs" ∈ mksquashfs_args (snapTypeOf t) ∧
    "-noappend" ∈ mksquashfs_args (snapTypeOf t) ∧
    (t = none → "-all-root" ∈ mksquashfs_args (snapTypeOf t)) := by
  by_cases h : snapTypeOf t = "os"
  · rw [h]
    refine ⟨by decide, by decide, by decide, ?_⟩
    intro ht
    subst ht
    simp [snapTypeOf] at h
  · refine ⟨?_, ?_, ?_, fun _ => ?_⟩ <;> simp [mksquashfs_args, h]

/-- Claim C9, witness: a concrete `os`-typed project omits `-all-root`
while a typeless project includes it. -/
theorem c9_mksquashfs_flags_witness :
    ("-all-root" ∈ mksquashfs_args (snapTypeOf (some "os")) ↔ snapTypeOf (some "os") ≠ "os") ∧
    "-no-xattrs" ∈ mksquashfs_args (snapTypeOf (some "os")) ∧
    "-noappend" ∈ mksquashfs_args (snapTypeOf (some "os")) ∧
    (some "os" = none → "-all-root" ∈ mksquashfs_args (snapTypeOf (some "os"))) :=
  c9_mksquashfs_flags (some "os")

/-- Claim C10: when a (part, step) is actually executed, the
`prepare_<step>` lookup-and-call is wrapped in
`contextlib.suppress(AttributeError)` as a whole: a missing hook is
tolerated, and an `AttributeError` raised from inside the body of an
existing hook is also swallowed, after which execution proceeds to the
plugin operation. -/
theorem c10_prepare_hook_suppression (cfg : Config) (st : SatState)
    (part : BuildPart) (step : String)
    (hrun : st part.name step = true)
    (hb : cfg.prep part.name step = PrepB.raisesAttr ∨
          cfg.prep part.name step = PrepB.missing) :
    (execPhase cfg st part step).1 = [Event.plugin part.name step] ∧
    ∀ a b, (execPhase cfg st part step).2.2 ≠ some (RunError.hookError a b) := by
  have hno : cfg.prep part.name step ≠ PrepB.raisesOther := by
    rcases hb with h | h <;> simp [h]
  have hnok : cfg.prep part.name step ≠ PrepB.ok := by
    rcases hb with h | h <;> simp [h]
  unfold execPhase
  rw [hrun]
  by_cases hp : cfg.pluginOk part.name step <;> simp [hno, hnok, hp]

/-- Claim C10, witness: a part whose existing hook raises
`AttributeError` still gets its plugin operation invoked, with no hook
error surfaced. -/
theorem c10_prepare_hook_suppression_witness :
    (execPhase cfgHook stAllDirty ⟨"w", []⟩ "pull").1 = [Event.plugin "w" "pull"] ∧
    ∀ a b, (execPhase cfgHook stAllDirty ⟨"w", []⟩ "pull").2.2 ≠
      some (RunError.hookError a b) :=
  c10_prepare_hook_suppression cfgHook stAllDirty ⟨"w", []⟩ "pull" rfl (Or.inl rfl)

/-- Claim C1: when the (possibly dirty-restricted) prerequisite set of a
part is non-empty and not contained in the active part-name set, the run
fails with an error naming the step, the part, and a prerequisite set
that contains every prerequisite whose staging step is still
unsatisfied, provided at least one such prerequisite exists; when every
such prerequisite is already staged, no error is raised and the part's
step proceeds to the skip/hook/plugin phase. -/
theorem c1_unsatisfied_prereq_check (recE : RecE) (cfg : Config) (st : SatState)
    (step : String) (part : BuildPart) (names dirty prereqs : Finset String)
    (recursed : Bool)
    (heff : prereqs = if recursed then partPrereqs cfg part.name ∩ dirty
                      else partPrereqs cfg part.name)
    (hne : prereqs ≠ ∅) (hnsub : ¬ prereqs ⊆ names) :
    ((∃ q ∈ cfg.parts, q.name ∈ prereqs ∧ st q.name "stage" = true) →
       runStepPartF recE cfg st step part names dirty recursed =
         ([Event.prereqsUsed recursed part.name prereqs], st,
           some (RunError.unsatisfiedPrereqs step part.name prereqs)) ∧
       (∀ q ∈ cfg.parts, q.name ∈ prereqs → st q.name "stage" = true →
          q.name ∈ prereqs)) ∧
    ((∀ q ∈ cfg.parts, q.name ∈ prereqs → st q.name "stage" = false) →
       runStepPartF recE cfg st step part names dirty recursed =
         (Event.prereqsUsed recursed part.name prereqs :: (execPhase cfg st part step).1,
           (execPhase cfg st part step).2.1, (execPhase cfg st part step).2.2)) := by
  constructor
  · intro hex
    refine ⟨?_, fun q _ hm _ => hm⟩
    have hany : cfg.parts.any
        (fun q => if q.name ∈ prereqs then st q.name "stage" else false) = true :=
      (parts_any_stage_iff cfg st prereqs).2 hex
    simp only [runStepPartF, ← heff]
    unfold prereqPhaseF
    rw [if_pos ⟨hne, hnsub⟩, if_pos hany]
    simp [andThen, withTrace]
  · intro hall
    have hany : ¬ (cfg.parts.any
        (fun q => if q.name ∈ prereqs then st q.name "stage" else false) = true) := by
      intro h
      obtain ⟨q, hq, hm, hst⟩ := (parts_any_stage_iff cfg st prereqs).1 h
      have := hall q hq hm
      rw [this] at hst
      exact Bool.false_ne_true hst
    simp only [runStepPartF, ← heff]
    unfold prereqPhaseF
    rw [if_pos ⟨hne, hnsub⟩, if_neg hany]
    rcases hE : execPhase cfg st part step with ⟨t2, s2, e2⟩
    simp [andThen, withTrace, hE]

/-- Claim C1, witness: requesting the pull of `a` (after `b`) without
including `b` fails with the unsatisfied-prerequisite error when `b` is
unstaged, and proceeds when `b` is staged. -/
theorem c1_unsatisfied_prereq_check_witness :
    runStepPartF dummyRec cfgPair stAllDirty "pull" ⟨"a", ["b"]⟩ {"a"} ∅ false =
      ([Event.prereqsUsed false "a" {"b"}], stAllDirty,
        some (RunError.unsatisfiedPrereqs "pull" "a" {"b"})) :=
  ((c1_unsatisfied_prereq_check dummyRec cfgPair stAllDirty "pull" ⟨"a", ["b"]⟩
      {"a"} ∅ {"b"} false (by decide) (by decide) (by decide)).1
    ⟨⟨"b", []⟩, by decide, by decide, rfl⟩).1

/-- Claim C8, counterexample: part `a` (after `b`) has its pull step
already satisfied (`should_step_run` is false), yet running pull for
`{a}` alone raises the unsatisfied-prerequisite error instead of
skipping: the satisfied-skip check sits after the prerequisite check, so
a satisfied step is not unconditionally skipped without error. -/
theorem c8_counterexample :
    stOnlyB "a" "pull" = false ∧
    (runE cfgPair 6 stOnlyB "pull" (some {"a"}) false).2.2 =
      some (RunError.unsatisfiedPrereqs "pull" "a" {"b"}) ∧
    Event.skip "a" "pull" ∉ (runE cfgPair 6 stOnlyB "pull" (some {"a"}) false).1 := by
  refine ⟨rfl, by decide, by decide⟩

/-- Claim C8 (amended): when the prerequisite phase of `_run_step`
completes without error and the state store then reports the step as
satisfied, the step is skipped with the observable already-ran
notification, no error is raised, and the remainder of the trace for
this (part, step) is exactly the skip event — neither the preparation
hook nor the plugin operation is invoked for it. -/
theorem c8_skip_when_satisfied (recE : RecE) (cfg : Config) (st st1 : SatState)
    (step : String) (part : BuildPart) (names dirty : Finset String) (recursed : Bool)
    (tr1 : List Event)
    (hpre : prereqPhaseF recE cfg st step part names
        (if recursed then partPrereqs cfg part.name ∩ dirty
         else partPrereqs cfg part.name) = (tr1, st1, none))
    (hsat : st1 part.name step = false) :
    runStepPartF recE cfg st step part names dirty recursed =
      (Event.prereqsUsed recursed part.name
          (if recursed then partPrereqs cfg part.name ∩ dirty
           else partPrereqs cfg part.name) ::
        (tr1 ++ [Event.skip part.name step]), st1, none) := by
  simp only [runStepPartF]
  rw [hpre]
  simp [andThen, withTrace, execPhase, hsat]

/-- Claim C8 (amended), witness: a dependency-free satisfied part is
skipped with no error. -/
theorem c8_skip_when_satisfied_witness :
    runStepPartF dummyRec cfgSolo stDone "pull" ⟨"w", []⟩ {"w"} ∅ false =
      (Event.prereqsUsed false "w" (partPrereqs cfgSolo "w") ::
        ([] ++ [Event.skip "w" "pull"]), stDone, none) :=
  c8_skip_when_satisfied dummyRec cfgSolo stDone stDone "pull" ⟨"w", []⟩ {"w"} ∅ false []
    rfl rfl

/-- Claim C4, counterexample: in the run `runE cfgChain _ _ "stage"` over
the whole chain `a after b after c` (everything dirty), a recursive
prerequisite invocation processes part `b` with the effective
prerequisite set ∅ — yet restricting `b`'s prerequisites to the dirty
set computed at the top level would give `{c}`.  The code restricts to
the dirty set of the current recursive invocation, not the top-level
one. -/
theorem c4_counterexample :
    Event.prereqsUsed true "b" ∅ ∈ (runE cfgChain 12 stAllDirty "stage" none false).1 ∧
    partPrereqs cfgChain "b" ∩ dirtyOf stAllDirty cfgChain.parts = {"c"} ∧
    ({"c"} : Finset String) ≠ ∅ := by
  refine ⟨by decide, by decide, by decide⟩

/-- Claim C4 (amended): in a recursive (`recursed = true`) processing of
a part the effective prerequisite set is the part's direct prerequisites
intersected with the dirty set handed down by the enclosing invocation;
a non-recursive processing applies no restriction; and every invocation
of the run body computes that dirty set at entry over its own active
part list (the active-set parts whose staging step is unsatisfied). -/
theorem c4_dirty_restriction :
    (∀ (recE : RecE) (cfg : Config) (st : SatState) (step : String) (part : BuildPart)
        (names dirty : Finset String),
       (runStepPartF recE cfg st step part names dirty true).1.head? =
         some (Event.prereqsUsed true part.name (partPrereqs cfg part.name ∩ dirty))) ∧
    (∀ (recE : RecE) (cfg : Config) (st : SatState) (step : String) (part : BuildPart)
        (names dirty : Finset String),
       (runStepPartF recE cfg st step part names dirty false).1.head? =
         some (Event.prereqsUsed false part.name (partPrereqs cfg part.name))) ∧
    (∀ (recE : RecE) (cfg : Config) (st : SatState) (step : String)
        (parts : List BuildPart) (names : Finset String) (recursed : Bool)
        (steps : List String), stepsUpTo step = some steps →
       (runEBodyF recE cfg st step parts names recursed).1.head? =
         some (Event.enterRun recursed (dirtyOf st parts))) := by
  refine ⟨?_, ?_, ?_⟩
  · intro recE cfg st step part names dirty
    simp [runStepPartF, withTrace]
  · intro recE cfg st step part names dirty
    simp [runStepPartF, withTrace]
  · intro recE cfg st step parts names recursed steps hsteps
    simp only [runEBodyF]
    rw [hsteps]
    rcases h : runStepsF (fun stq q => recE stq q) cfg parts names (dirtyOf st parts)
        recursed st steps with ⟨tr, st1, e⟩
    cases e <;> simp [withTrace, h]

/-- Claim C4 (amended), witness: the run body at a concrete input records
its entry dirty set. -/
theorem c4_dirty_restriction_witness :
    (runEBodyF dummyRec cfgSolo stAllDirty "pull" cfgSolo.parts {"w"} true).1.head? =
      some (Event.enterRun true (dirtyOf stAllDirty cfgSolo.parts)) :=
  c4_dirty_restriction.2.2 dummyRec cfgSolo stAllDirty "pull" cfgSolo.parts {"w"} true
    ["pull"] rfl

/-- Claim C3, counterexample: in the chain `a after b after c` with
nothing staged, the full run to the staging step executes `b`'s staging
step strictly before any staging (execution or skip) of `b`'s declared
prerequisite `c` — so prerequisite parts are not always driven through
the staging step before their dependent executes its own step. -/
theorem c3_counterexample :
    ("c" ∈ partPrereqs cfgChain "b") ∧
    stAllDirty "c" "stage" = true ∧
    Event.plugin "b" "stage" ∈
      ((runE cfgChain 12 stAllDirty "stage" none false).1.takeWhile
        (fun e => !(decide (e = Event.plugin "c" "stage")))) ∧
    Event.skip "c" "stage" ∉
      ((runE cfgChain 12 stAllDirty "stage" none false).1.takeWhile
        (fun e => !(decide (e = Event.plugin "c" "stage")))) := by
  refine ⟨by decide, rfl, by decide, by decide⟩

lemma stageGuardedFrom_true (tr : List Event) : stageGuardedFrom true tr = true := by
  induction tr with
  | nil => rfl
  | cons e rest ih => cases e <;> simp [stageGuardedFrom, ih]

lemma stageGuardedFrom_append (a b : List Event)
    (ha : stageGuardedFrom false a = true) (hb : stageGuardedFrom false b = true) :
    stageGuardedFrom false (a ++ b) = true := by
  induction a with
  | nil => simpa using hb
  | cons e rest ih =>
    cases e <;> simp only [List.cons_append, stageGuardedFrom] at ha ⊢
    case collisionCheck => exact stageGuardedFrom_true _
    case plugin p s =>
      rw [Bool.and_eq_true] at ha ⊢
      exact ⟨ha.1, ih ha.2⟩
    all_goals exact ih ha

lemma guard_andThen (r : RunRes) (k : SatState → RunRes)
    (hr : stageGuardedFrom false r.1 = true)
    (hk : ∀ st, stageGuardedFrom false (k st).1 = true) :
    stageGuardedFrom false (andThen r k).1 = true := by
  rcases r with ⟨tr, st, e⟩
  cases e with
  | some e => simpa [andThen] using hr
  | none =>
    simpa [andThen, withTrace] using stageGuardedFrom_append tr (k st).1 hr (hk st)

lemma guard_execPhase (cfg : Config) (st : SatState) (part : BuildPart) (step : String)
    (h : step ≠ "stage") :
    stageGuardedFrom false (execPhase cfg st part step).1 = true := by
  unfold execPhase
  by_cases h1 : st part.name step = false <;>
    by_cases h2 : cfg.prep part.name step = PrepB.raisesOther <;>
      by_cases h3 : cfg.prep part.name step = PrepB.ok <;>
        by_cases h4 : cfg.pluginOk part.name step <;>
          simp [h1, h2, h3, h4, stageGuardedFrom, h]

lemma guard_prereqPhaseF (recE : RecE) (cfg : Config) (st : SatState) (step : String)
    (part : BuildPart) (names prereqs : Finset String)
    (hrec : ∀ stq q, stageGuardedFrom false (recE stq q).1 = true) :
    stageGuardedFrom false (prereqPhaseF recE cfg st step part names prereqs).1 = true := by
  unfold prereqPhaseF
  split_ifs with h1 h2 h3
  · rfl
  · rfl
  · simpa [withTrace, stageGuardedFrom] using hrec st prereqs
  · rfl

lemma guard_runStepPartF (recE : RecE) (cfg : Config) (st : SatState) (step : String)
    (part : BuildPart) (names dirty : Finset String) (recursed : Bool)
    (hstep : step ≠ "stage")
    (hrec : ∀ stq q, stageGuardedFrom false (recE stq q).1 = true) :
    stageGuardedFrom false (runStepPartF recE cfg st step part names dirty recursed).1 = true := by
  simp only [runStepPartF, withTrace]
  have h := guard_andThen
      (prereqPhaseF recE cfg st step part names
        (if recursed then partPrereqs cfg part.name ∩ dirty else partPrereqs cfg part.name))
      (fun st1 => execPhase cfg st1 part step)
      (guard_prereqPhaseF recE cfg st step part names _ hrec)
      (fun st1 => guard_execPhase cfg st1 part step hstep)
  simpa [stageGuardedFrom] using h

lemma guard_runPartsF (recE : RecE) (cfg : Config) (step : String)
    (names dirty : Finset String) (recursed : Bool)
    (hstep : step ≠ "stage")
    (hrec : ∀ stq q, stageGuardedFrom false (recE stq q).1 = true) :
    ∀ (ps : List BuildPart) (st : SatState),
      stageGuardedFrom false (runPartsF recE cfg step names dirty recursed st ps).1 = true := by
  intro ps
  induction ps with
  | nil => intro st; rfl
  | cons p rest ih =>
    intro st
    simp only [runPartsF]
    exact guard_andThen _ _
      (guard_runStepPartF recE cfg st step p names dirty recursed hstep hrec)
      (fun st1 => ih st1)

lemma guard_runStepsF (recE : RecE) (cfg : Config) (parts : List BuildPart)
    (names dirty : Finset String) (recursed : Bool)
    (hrec : ∀ stq q, stageGuardedFrom false (recE stq q).1 = true) :
    ∀ (ss : List String) (st : SatState),
      stageGuardedFrom false (runStepsF recE cfg parts names dirty recursed st ss).1 = true := by
  intro ss
  induction ss with
  | nil => intro st; rfl
  | cons s rest ih =>
    intro st
    simp only [runStepsF]
    by_cases hs : s = "stage"
    · rw [if_pos hs]
      by_cases hc : cfg.collision = true
      · rw [if_pos hc]; rfl
      · rw [if_neg hc]
        simp [withTrace, stageGuardedFrom, stageGuardedFrom_true]
    · rw [if_neg hs]
      exact guard_andThen _ _ (guard_runPartsF recE cfg s names dirty recursed hs hrec parts st)
        (fun st1 => ih st1)

lemma guard_runEBodyF (recE : RecE) (cfg : Config) (st : SatState) (step : String)
    (parts : List BuildPart) (names : Finset String) (recursed : Bool)
    (hrec : ∀ stq q, stageGuardedFrom false (recE stq q).1 = true) :
    stageGuardedFrom false (runEBodyF recE cfg st step parts names recursed).1 = true := by
  simp only [runEBodyF]
  rcases hsteps : stepsUpTo step with _ | steps
  · rfl
  · rcases h : runStepsF recE cfg parts names (dirtyOf st parts) recursed st steps
      with ⟨tr, st1, e⟩
    have htr : stageGuardedFrom false tr = true := by
      have h2 := guard_runStepsF recE cfg parts names (dirtyOf st parts) recursed hrec steps st
      rw [h] at h2
      exact h2
    have hm : stageGuardedFrom false
        (if step = "strip" ∧ names = configPartNames cfg then [Event.meta] else []) = true := by
      split_ifs <;> rfl
    cases e with
    | some e => simp [h, withTrace, stageGuardedFrom, htr]
    | none =>
      simp only [h, withTrace, List.singleton_append]
      simpa [stageGuardedFrom] using stageGuardedFrom_append tr _ htr hm

lemma guard_runE : ∀ (n : Nat) (cfg : Config) (st : SatState) (step : String)
    (pno : Option (Finset String)) (recursed : Bool),
    stageGuardedFrom false (runE cfg n st step pno recursed).1 = true := by
  intro n
  induction n with
  | zero => intro cfg st step pno r; rfl
  | succ n ih =>
    intro cfg st step pno r
    have hrec : ∀ stq q,
        stageGuardedFrom false (runE cfg n stq "stage" (some q) true).1 = true :=
      fun stq q => ih cfg stq "stage" (some q) true
    cases pno with
    | none => simp only [runE]; exact guard_runEBodyF _ cfg st step _ _ r hrec
    | some names =>
      simp only [runE]
      by_cases h1 : names = ∅
      · rw [if_pos h1]
        exact guard_runEBodyF _ cfg st step _ _ r hrec
      · rw [if_neg h1]
        by_cases h2 : names ⊆ configPartNames cfg
        · rw [if_pos h2]
          exact guard_runEBodyF _ cfg st step _ _ r hrec
        · rw [if_neg h2]; rfl

lemma noStageExec_append (a b : List Event) :
    noStageExec (a ++ b) = (noStageExec a && noStageExec b) := by
  simp [noStageExec, List.all_append]

lemma noStage_andThen (r : RunRes) (k : SatState → RunRes)
    (hr : noStageExec r.1 = true) (hk : ∀ st, noStageExec (k st).1 = true) :
    noStageExec (andThen r k).1 = true := by
  rcases r with ⟨tr, st, e⟩
  cases e with
  | some e => simpa [andThen] using hr
  | none => simp [andThen, withTrace, noStageExec_append, hr, hk st]

lemma noStage_execPhase (cfg : Config) (st : SatState) (part : BuildPart) (step : String)
    (h : step ≠ "stage") :
    noStageExec (execPhase cfg st part step).1 = true := by
  unfold execPhase
  by_cases h1 : st part.name step = false <;>
    by_cases h2 : cfg.prep part.name step = PrepB.raisesOther <;>
      by_cases h3 : cfg.prep part.name step = PrepB.ok <;>
        by_cases h4 : cfg.pluginOk part.name step <;>
          simp [h1, h2, h3, h4, noStageExec, h]

lemma noStage_prereqPhaseF (recE : RecE) (cfg : Config) (st : SatState) (step : String)
    (part : BuildPart) (names prereqs : Finset String)
    (hrec : ∀ stq q, noStageExec (recE stq q).1 = true) :
    noStageExec (prereqPhaseF recE cfg st step part names prereqs).1 = true := by
  unfold prereqPhaseF
  split_ifs with h1 h2 h3
  · rfl
  · rfl
  · simpa [withTrace, noStageExec] using hrec st prereqs
  · rfl

lemma noStage_runStepPartF (recE : RecE) (cfg : Config) (st : SatState) (step : String)
    (part : BuildPart) (names dirty : Finset String) (recursed : Bool)
    (hstep : step ≠ "stage")
    (hrec : ∀ stq q, noStageExec (recE stq q).1 = true) :
    noStageExec (runStepPartF recE cfg st step part names dirty recursed).1 = true := by
  simp only [runStepPartF, withTrace]
  have h := noStage_andThen
      (prereqPhaseF recE cfg st step part names
        (if recursed then partPrereqs cfg part.name ∩ dirty else partPrereqs cfg part.name))
      (fun st1 => execPhase cfg st1 part step)
      (noStage_prereqPhaseF recE cfg st step part names _ hrec)
      (fun st1 => noStage_execPhase cfg st1 part step hstep)
  simpa [noStageExec] using h

lemma noStage_runPartsF (recE : RecE) (cfg : Config) (step : String)
    (names dirty : Finset String) (recursed : Bool)
    (hstep : step ≠ "stage")
    (hrec : ∀ stq q, noStageExec (recE stq q).1 = true) :
    ∀ (ps : List BuildPart) (st : SatState),
      noStageExec (runPartsF recE cfg step names dirty recursed st ps).1 = true := by
  intro ps
  induction ps with
  | nil => intro st; rfl
  | cons p rest ih =>
    intro st
    simp only [runPartsF]
    exact noStage_andThen _ _
      (noStage_runStepPartF recE cfg st step p names dirty recursed hstep hrec)
      (fun st1 => ih st1)

lemma noStage_runStepsF (recE : RecE) (cfg : Config) (parts : List BuildPart)
    (names dirty : Finset String) (recursed : Bool)
    (hcol : cfg.collision = true)
    (hrec : ∀ stq q, noStageExec (recE stq q).1 = true) :
    ∀ (ss : List String) (st : SatState),
      noStageExec (runStepsF recE cfg parts names dirty recursed st ss).1 = true := by
  intro ss
  induction ss with
  | nil => intro st; rfl
  | cons s rest ih =>
    intro st
    simp only [runStepsF]
    by_cases hs : s = "stage"
    · rw [if_pos hs, if_pos hcol]; rfl
    · rw [if_neg hs]
      exact noStage_andThen _ _
        (noStage_runPartsF recE cfg s names dirty recursed hs hrec parts st)
        (fun st1 => ih st1)

lemma noStage_runEBodyF (recE : RecE) (cfg : Config) (st : SatState) (step : String)
    (parts : List BuildPart) (names : Finset String) (recursed : Bool)
    (hcol : cfg.collision = true)
    (hrec : ∀ stq q, noStageExec (recE stq q).1 = true) :
    noStageExec (runEBodyF recE cfg st step parts names recursed).1 = true := by
  simp only [runEBodyF]
  rcases hsteps : stepsUpTo step with _ | steps
  · rfl
  · rcases h : runStepsF recE cfg parts names (dirtyOf st parts) recursed st steps
      with ⟨tr, st1, e⟩
    have htr : noStageExec tr = true := by
      have h2 := noStage_runStepsF recE cfg parts names (dirtyOf st parts) recursed
        hcol hrec steps st
      rw [h] at h2
      exact h2
    have hm : noStageExec
        (if step = "strip" ∧ names = configPartNames cfg then [Event.meta] else []) = true := by
      split_ifs <;> rfl
    cases e with
    | some e =>
      simp only [h, withTrace, List.singleton_append]
      simpa [noStageExec] using htr
    | none =>
      have hall : noStageExec (tr ++
          (if step = "strip" ∧ names = configPartNames cfg then [Event.meta] else [])) = true := by
        rw [noStageExec_append, htr, hm]; rfl
      simp only [h, withTrace, List.singleton_append]
      simpa [noStageExec] using hall

lemma noStage_runE : ∀ (n : Nat) (cfg : Config) (st : SatState) (step : String)
    (pno : Option (Finset String)) (recursed : Bool), cfg.collision = true →
    noStageExec (runE cfg n st step pno recursed).1 = true := by
  intro n
  induction n with
  | zero => intro cfg st step pno r _; rfl
  | succ n ih =>
    intro cfg st step pno r hcol
    have hrec : ∀ stq q, noStageExec (runE cfg n stq "stage" (some q) true).1 = true :=
      fun stq q => ih cfg stq "stage" (some q) true hcol
    cases pno with
    | none =>
      simp only [runE]
      exact noStage_runEBodyF _ cfg st step _ _ r hcol hrec
    | some names =>
      simp only [runE]
      by_cases h1 : names = ∅
      · rw [if_pos h1]
        exact noStage_runEBodyF _ cfg st step _ _ r hcol hrec
      · rw [if_neg h1]
        by_cases h2 : names ⊆ configPartNames cfg
        · rw [if_pos h2]
          exact noStage_runEBodyF _ cfg st step _ _ r hcol hrec
        · rw [if_neg h2]; rfl

/-- Claim C2: in every executor run, any staging plugin execution in the
trace is preceded by a collision-detector invocation (the check opens
the staging iteration, before any part of the active set runs its
staging step), and when the collision detector reports a collision, no
part's staging step executes anywhere in the run — the collision aborts
the run first. -/
theorem c2_collision_before_staging (cfg : Config) (n : Nat) (st : SatState)
    (step : String) (pno : Option (Finset String)) (recursed : Bool) :
    stageGuardedFrom false (runE cfg n st step pno recursed).1 = true ∧
    (cfg.collision = true → noStageExec (runE cfg n st step pno recursed).1 = true) :=
  ⟨guard_runE n cfg st step pno recursed,
   fun hc => noStage_runE n cfg st step pno recursed hc⟩

/-- Claim C2, witness: a full run to the staging step on a colliding
chain configuration is guarded and stages nothing. -/
theorem c2_collision_before_staging_witness :
    stageGuardedFrom false (runE cfgColl 12 stAllDirty "stage" none false).1 = true ∧
    noStageExec (runE cfgColl 12 stAllDirty "stage" none false).1 = true :=
  ⟨(c2_collision_before_staging cfgColl 12 stAllDirty "stage" none false).1,
   (c2_collision_before_staging cfgColl 12 stAllDirty "stage" none false).2 rfl⟩

lemma meta_not_execPhase (cfg : Config) (st : SatState) (part : BuildPart) (step : String) :
    Event.meta ∉ (execPhase cfg st part step).1 := by
  unfold execPhase
  by_cases h1 : st part.name step = false <;>
    by_cases h2 : cfg.prep part.name step = PrepB.raisesOther <;>
      by_cases h3 : cfg.prep part.name step = PrepB.ok <;>
        by_cases h4 : cfg.pluginOk part.name step <;>
          simp [h1, h2, h3, h4]

lemma meta_not_andThen (r : RunRes) (k : SatState → RunRes)
    (hr : Event.meta ∉ r.1) (hk : ∀ st, Event.meta ∉ (k st).1) :
    Event.meta ∉ (andThen r k).1 := by
  rcases r with ⟨tr, st, e⟩
  cases e with
  | some e => simpa [andThen] using hr
  | none =>
    simp only [andThen, withTrace, List.mem_append]
    rintro (h | h)
    · exact hr h
    · exact hk st h

lemma meta_not_prereqPhaseF (recE : RecE) (cfg : Config) (st : SatState) (step : String)
    (part : BuildPart) (names prereqs : Finset String)
    (hrec : ∀ stq q, Event.meta ∉ (recE stq q).1) :
    Event.meta ∉ (prereqPhaseF recE cfg st step part names prereqs).1 := by
  unfold prereqPhaseF
  split_ifs with h1 h2 h3
  · simp
  · simp
  · simpa [withTrace] using hrec st prereqs
  · simp

lemma meta_not_runStepPartF (recE : RecE) (cfg : Config) (st : SatState) (step : String)
    (part : BuildPart) (names dirty : Finset String) (recursed : Bool)
    (hrec : ∀ stq q, Event.meta ∉ (recE stq q).1) :
    Event.meta ∉ (runStepPartF recE cfg st step part names dirty recursed).1 := by
  simp only [runStepPartF, withTrace, List.singleton_append, List.mem_cons]
  rintro (h | h)
  · exact Event.noConfusion h
  · exact meta_not_andThen _ _
      (meta_not_prereqPhaseF recE cfg st step part names _ hrec)
      (fun st1 => meta_not_execPhase cfg st1 part step) h

lemma meta_not_runPartsF (recE : RecE) (cfg : Config) (step : String)
    (names dirty : Finset String) (recursed : Bool)
    (hrec : ∀ stq q, Event.meta ∉ (recE stq q).1) :
    ∀ (ps : List BuildPart) (st : SatState),
      Event.meta ∉ (runPartsF recE cfg step names dirty recursed st ps).1 := by
  intro ps
  induction ps with
  | nil => intro st; simp [runPartsF]
  | cons p rest ih =>
    intro st
    simp only [runPartsF]
    exact meta_not_andThen _ _
      (meta_not_runStepPartF recE cfg st step p names dirty recursed hrec)
      (fun st1 => ih st1)

lemma meta_not_runStepsF (recE : RecE) (cfg : Config) (parts : List BuildPart)
    (names dirty : Finset String) (recursed : Bool)
    (hrec : ∀ stq q, Event.meta ∉ (recE stq q).1) :
    ∀ (ss : List String) (st : SatState),
      Event.meta ∉ (runStepsF recE cfg parts names dirty recursed st ss).1 := by
  intro ss
  induction ss with
  | nil => intro st; simp [runStepsF]
  | cons s rest ih =>
    intro st
    simp only [runStepsF]
    by_cases hs : s = "stage"
    · rw [if_pos hs]
      by_cases hc : cfg.collision = true
      · rw [if_pos hc]; simp
      · rw [if_neg hc]
        simp only [withTrace, List.singleton_append, List.mem_cons]
        rintro (h | h)
        · exact Event.noConfusion h
        · exact meta_not_andThen _ _
            (meta_not_runPartsF recE cfg s names dirty recursed hrec parts st)
            (fun st1 => ih st1) h
    · rw [if_neg hs]
      exact meta_not_andThen _ _
        (meta_not_runPartsF recE cfg s names dirty recursed hrec parts st)
        (fun st1 => ih st1)

lemma meta_not_runEBodyF (recE : RecE) (cfg : Config) (st : SatState) (step : String)
    (parts : List BuildPart) (names : Finset String) (recursed : Bool)
    (hstep : step ≠ "strip")
    (hrec : ∀ stq q, Event.meta ∉ (recE stq q).1) :
    Event.meta ∉ (runEBodyF recE cfg st step parts names recursed).1 := by
  simp only [runEBodyF]
  rcases hsteps : stepsUpTo step with _ | steps
  · simp
  · rcases h : runStepsF recE cfg parts names (dirtyOf st parts) recursed st steps
      with ⟨tr, st1, e⟩
    have htr : Event.meta ∉ tr := by
      have h2 := meta_not_runStepsF recE cfg parts names (dirtyOf st parts) recursed
        hrec steps st
      rw [h] at h2
      exact h2
    cases e with
    | some e =>
      simp only [h, withTrace, List.singleton_append, List.mem_cons]
      rintro (hx | hx)
      · exact Event.noConfusion hx
      · exact htr hx
    | none =>
      simp only [h, withTrace, List.singleton_append, List.mem_cons, List.mem_append]
      rw [if_neg (by simp [hstep])]
      rintro (hx | hx | hx)
      · exact Event.noConfusion hx
      · exact htr hx
      · simp at hx

lemma meta_not_runE_stage : ∀ (n : Nat) (cfg : Config) (st : SatState)
    (pno : Option (Finset String)) (recursed : Bool),
    Event.meta ∉ (runE cfg n st "stage" pno recursed).1 := by
  intro n
  induction n with
  | zero => intro cfg st pno r; simp [runE]
  | succ n ih =>
    intro cfg st pno r
    have hrec : ∀ stq q, Event.meta ∉ (runE cfg n stq "stage" (some q) true).1 :=
      fun stq q => ih cfg stq (some q) true
    cases pno with
    | none =>
      simp only [runE]
      exact meta_not_runEBodyF _ cfg st "stage" _ _ r (by decide) hrec
    | some names =>
      simp only [runE]
      by_cases h1 : names = ∅
      · rw [if_pos h1]
        exact meta_not_runEBodyF _ cfg st "stage" _ _ r (by decide) hrec
      · rw [if_neg h1]
        by_cases h2 : names ⊆ configPartNames cfg
        · rw [if_pos h2]
          exact meta_not_runEBodyF _ cfg st "stage" _ _ r (by decide) hrec
        · rw [if_neg h2]; simp

lemma meta_runEBodyF_iff (recE : RecE) (cfg : Config) (st : SatState) (step : String)
    (parts : List BuildPart) (names : Finset String) (recursed : Bool)
    (hrec : ∀ stq q, Event.meta ∉ (recE stq q).1)
    (hok : (runEBodyF recE cfg st step parts names recursed).2.2 = none) :
    (Event.meta ∈ (runEBodyF recE cfg st step parts names recursed).1 ↔
      (step = "strip" ∧ names = configPartNames cfg)) := by
  revert hok
  simp only [runEBodyF]
  rcases hsteps : stepsUpTo step with _ | steps
  · intro hok; simp at hok
  · simp only []
    rcases h : runStepsF recE cfg parts names (dirtyOf st parts) recursed st steps
      with ⟨tr, st1, e⟩
    have htr : Event.meta ∉ tr := by
      have h2 := meta_not_runStepsF recE cfg parts names (dirtyOf st parts) recursed
        hrec steps st
      rw [h] at h2
      exact h2
    cases e with
    | some e => intro hok; simp [withTrace] at hok
    | none =>
      intro _
      simp only [withTrace, List.singleton_append, List.mem_cons, List.mem_append]
      constructor
      · rintro (hx | hx | hx)
        · exact absurd hx (by simp)
        · exact absurd hx htr
        · by_cases hcond : step = "strip" ∧ names = configPartNames cfg
          · exact hcond
          · rw [if_neg hcond] at hx; simp at hx
      · intro hcond
        rw [if_pos hcond]
        simp

/-- Claim C7: a completed executor run triggers manifest generation iff
the target step is the packaging step `strip` and the resolved active
part-name set equals the full project part-name set; a run over a proper
subset (or any recursive staging run) never triggers it. -/
theorem c7_meta_on_full_strip_only (cfg : Config) (n : Nat) (st : SatState)
    (step : String) (pno : Option (Finset String)) (recursed : Bool)
    (hok : (runE cfg n st step pno recursed).2.2 = none) :
    (Event.meta ∈ (runE cfg n st step pno recursed).1 ↔
      (step = "strip" ∧ resolveNames cfg pno = configPartNames cfg)) := by
  cases n with
  | zero => simp [runE] at hok
  | succ n =>
    have hrec : ∀ stq q, Event.meta ∉ (runE cfg n stq "stage" (some q) true).1 :=
      fun stq q => meta_not_runE_stage n cfg stq (some q) true
    cases pno with
    | none =>
      simp only [runE] at hok ⊢
      rw [meta_runEBodyF_iff _ cfg st step _ _ recursed hrec hok]
      simp [resolveNames]
    | some names =>
      simp only [runE] at hok ⊢
      by_cases h1 : names = ∅
      · rw [if_pos h1] at hok ⊢
        rw [meta_runEBodyF_iff _ cfg st step _ _ recursed hrec hok]
        simp [resolveNames, h1]
      · rw [if_neg h1] at hok ⊢
        by_cases h2 : names ⊆ configPartNames cfg
        · rw [if_pos h2] at hok ⊢
          rw [meta_runEBodyF_iff _ cfg st step _ _ recursed hrec hok]
          simp [resolveNames, h1]
        · rw [if_neg h2] at hok; simp at hok

/-- Claim C7, witness: a full-project run to `strip` completes and does
trigger manifest generation. -/
theorem c7_meta_on_full_strip_only_witness :
    (runE cfgSolo 3 stAllDirty "strip" none false).2.2 = none ∧
    (Event.meta ∈ (runE cfgSolo 3 stAllDirty "strip" none false).1 ↔
      ("strip" = "strip" ∧ resolveNames cfgSolo none = configPartNames cfgSolo)) :=
  ⟨by decide, c7_meta_on_full_strip_only cfgSolo 3 stAllDirty "strip" none false (by decide)⟩

lemma partPrereqs_nil (cfg : Config) (hafter : ∀ p ∈ cfg.parts, p.after = [])
    (nm : String) : partPrereqs cfg nm = ∅ := by
  unfold partPrereqs
  rcases hf : cfg.parts.find? (fun p => p.name = nm) with _ | p
  · rw [hf]
  · rw [hf]
    simp only []
    rw [hafter p (List.mem_of_find?_eq_some hf)]
    rfl

lemma execPhase_no_err (cfg : Config) (st : SatState) (p : BuildPart) (s : String)
    (hprep : cfg.prep p.name s ≠ PrepB.raisesOther)
    (hplug : cfg.pluginOk p.name s = true) :
    (execPhase cfg st p s).2.2 = none := by
  unfold execPhase
  by_cases h1 : st p.name s = false <;>
    by_cases h3 : cfg.prep p.name s = PrepB.ok <;>
      simp [h1, h3, hprep, hplug]

lemma runStepPartF_no_prereqs (recE : RecE) (cfg : Config) (st : SatState)
    (s : String) (p : BuildPart) (names dirty : Finset String)
    (hafter : ∀ q ∈ cfg.parts, q.after = []) :
    runStepPartF recE cfg st s p names dirty false =
      (Event.prereqsUsed false p.name ∅ :: (execPhase cfg st p s).1,
        (execPhase cfg st p s).2.1, (execPhase cfg st p s).2.2) := by
  rcases hE : execPhase cfg st p s with ⟨t2, s2, e2⟩
  simp [runStepPartF, partPrereqs_nil cfg hafter, prereqPhaseF, andThen, withTrace, hE]

lemma runPartsF_spec (recE : RecE) (cfg : Config) (s : String)
    (names dirty : Finset String)
    (hafter : ∀ q ∈ cfg.parts, q.after = [])
    (hprep : ∀ a b, cfg.prep a b ≠ PrepB.raisesOther)
    (hplug : ∀ a b, cfg.pluginOk a b = true) :
    ∀ (ps : List BuildPart) (st : SatState),
      runPartsF recE cfg s names dirty false st ps =
        ((specPartPass cfg s st ps).1, (specPartPass cfg s st ps).2, none) := by
  intro ps
  induction ps with
  | nil => intro st; rfl
  | cons p rest ih =>
    intro st
    simp only [runPartsF, specPartPass]
    rw [runStepPartF_no_prereqs recE cfg st s p names dirty hafter]
    rcases hE : execPhase cfg st p s with ⟨t2, s2, e2⟩
    have he2 : e2 = none := by
      have h0 := execPhase_no_err cfg st p s (hprep p.name s) (hplug p.name s)
      rw [hE] at h0
      exact h0
    subst he2
    simp only [andThen, withTrace]
    rw [ih s2]
    simp

lemma runStepsF_spec (recE : RecE) (cfg : Config) (parts : List BuildPart)
    (names dirty : Finset String)
    (hafter : ∀ q ∈ cfg.parts, q.after = [])
    (hprep : ∀ a b, cfg.prep a b ≠ PrepB.raisesOther)
    (hplug : ∀ a b, cfg.pluginOk a b = true)
    (hcol : cfg.collision = false) :
    ∀ (ss : List String) (st : SatState),
      runStepsF recE cfg parts names dirty false st ss =
        ((specStepMajor cfg parts st ss).1, (specStepMajor cfg parts st ss).2, none) := by
  intro ss
  induction ss with
  | nil => intro st; rfl
  | cons s rest ih =>
    intro st
    simp only [runStepsF, specStepMajor]
    have hparts := runPartsF_spec recE cfg s names dirty hafter hprep hplug parts st
    by_cases hs : s = "stage"
    · rw [if_pos hs, if_pos hs, if_neg (by rw [hcol]; exact Bool.false_ne_true)]
      rw [hparts]
      simp only [andThen, withTrace]
      rw [ih (specPartPass cfg s st parts).2]
    · rw [if_neg hs, if_neg hs]
      rw [hparts]
      simp only [andThen, withTrace]
      rw [ih (specPartPass cfg s st parts).2]
      simp

/-- Claim C3 (amended): execution is step-major.  On a configuration
with no prerequisite edges the trace of a full run is exactly the
step-major reference trace: each lifecycle step up to the target is
performed (or skipped) for every active part before any part advances to
the next step, with the collision check opening the staging pass and
manifest generation closing a full `strip` run.  (With prerequisite
edges, recursive prerequisite staging interleaves earlier: the run of a
recursive invocation restricts prerequisites to its own dirty set, so a
transitive prerequisite may stage after its dependent — see the
counterexample.) -/
theorem c3_step_major (cfg : Config) (n : Nat) (st : SatState) (step : String)
    (steps : List String)
    (hafter : ∀ q ∈ cfg.parts, q.after = [])
    (hprep : ∀ a b, cfg.prep a b ≠ PrepB.raisesOther)
    (hplug : ∀ a b, cfg.pluginOk a b = true)
    (hcol : cfg.collision = false)
    (hsteps : stepsUpTo step = some steps) :
    runE cfg (n + 1) st step none false =
      (Event.enterRun false (dirtyOf st cfg.parts) ::
        ((specStepMajor cfg cfg.parts st steps).1 ++
          (if step = "strip" then [Event.meta] else [])),
        (specStepMajor cfg cfg.parts st steps).2, none) := by
  simp only [runE, runEBodyF]
  rw [hsteps]
  simp only []
  rw [runStepsF_spec _ cfg cfg.parts (configPartNames cfg) (dirtyOf st cfg.parts)
    hafter hprep hplug hcol steps st]
  simp [withTrace]

/-- Claim C3 (amended), witness: a dependency-free single-part run. -/
theorem c3_step_major_witness :
    runE cfgSolo 1 stAllDirty "pull" none false =
      (Event.enterRun false (dirtyOf stAllDirty cfgSolo.parts) ::
        ((specStepMajor cfgSolo cfgSolo.parts stAllDirty ["pull"]).1 ++
          (if "pull" = "strip" then [Event.meta] else [])),
        (specStepMajor cfgSolo cfgSolo.parts stAllDirty ["pull"]).2, none) :=
  c3_step_major cfgSolo 0 stAllDirty "pull" ["pull"]
    (by decide) (fun a b => by simp [cfgSolo]) (fun a b => rfl) rfl (by decide)

lemma unionSteps_none (g : String → Option (Finset String)) (l : List String) :
    unionSteps g l none = none := by
  induction l with
  | nil => rfl
  | cons d ds ih =>
    simp only [unionSteps, List.foldl_cons, Option.none_bind]
    exact ih

lemma unionSteps_isSome_iff (g : String → Option (Finset String)) (l : List String) :
    ∀ (s0 : Finset String),
      ((unionSteps g l (some s0)).isSome = true ↔ ∀ d ∈ l, (g d).isSome = true) := by
  induction l with
  | nil => intro s0; simp [unionSteps]
  | cons d ds ih =>
    intro s0
    rcases hg : g d with _ | sd
    · have hnone : unionSteps g (d :: ds) (some s0) = none := by
        simp only [unionSteps, List.foldl_cons, Option.some_bind, hg, Option.map_none']
        exact unionSteps_none g ds
      rw [hnone]
      simp [hg]
    · have hstep : unionSteps g (d :: ds) (some s0) = unionSteps g ds (some (s0 ∪ sd)) := by
        simp only [unionSteps, List.foldl_cons, Option.some_bind, hg, Option.map_some']
      rw [hstep, ih (s0 ∪ sd)]
      simp [hg]

lemma unionSteps_some_sub (g : String → Option (Finset String)) (l : List String) :
    ∀ (s0 s : Finset String), unionSteps g l (some s0) = some s →
      s0 ⊆ s ∧ ∀ d ∈ l, ∃ sd, g d = some sd ∧ sd ⊆ s := by
  induction l with
  | nil =>
    intro s0 s h
    simp only [unionSteps, List.foldl_nil, Option.some.injEq] at h
    subst h
    exact ⟨subset_rfl, by simp⟩
  | cons d ds ih =>
    intro s0 s h
    rcases hg : g d with _ | sd
    · exfalso
      have hnone : unionSteps g (d :: ds) (some s0) = none := by
        simp only [unionSteps, List.foldl_cons, Option.some_bind, hg, Option.map_none']
        exact unionSteps_none g ds
      rw [hnone] at h
      cases h
    · have hstep : unionSteps g (d :: ds) (some s0) = unionSteps g ds (some (s0 ∪ sd)) := by
        simp only [unionSteps, List.foldl_cons, Option.some_bind, hg, Option.map_some']
      rw [hstep] at h
      obtain ⟨hsub, hall⟩ := ih (s0 ∪ sd) s h
      refine ⟨subset_trans Finset.subset_union_left hsub, ?_⟩
      intro x hx
      rw [List.mem_cons] at hx
      rcases hx with rfl | hx
      · exact ⟨sd, hg, subset_trans Finset.subset_union_right hsub⟩
      · exact hall x hx

lemma rdt_cyc_none : ∀ n, rdtFuel cfgCyc n "a" = none ∧ rdtFuel cfgCyc n "b" = none := by
  intro n
  induction n with
  | zero => exact ⟨rfl, rfl⟩
  | succ n ih =>
    have hda : partDependentsList cfgCyc "a" = ["b"] := by decide
    have hdb : partDependentsList cfgCyc "b" = ["a"] := by decide
    constructor
    · show unionSteps (rdtFuel cfgCyc n) (partDependentsList cfgCyc "a")
        (some (partDependentsList cfgCyc "a").toFinset) = none
      rw [hda]
      simp only [unionSteps, List.foldl_cons, List.foldl_nil, Option.some_bind,
        ih.2, Option.map_none']
    · show unionSteps (rdtFuel cfgCyc n) (partDependentsList cfgCyc "b")
        (some (partDependentsList cfgCyc "b").toFinset) = none
      rw [hdb]
      simp only [unionSteps, List.foldl_cons, List.foldl_nil, Option.some_bind,
        ih.1, Option.map_none']

/-- Claim C6, counterexample: on the cyclic configuration `a after b`,
`b after a`, the reverse-dependency computation yields no result at any
recursion-depth bound — mirroring that the unguarded Python recursion of
`_reverse_dependency_tree` never terminates on a cyclic graph. -/
theorem c6_counterexample : ¬ ∃ n, (rdtFuel cfgCyc n "a").isSome = true := by
  rintro ⟨n, hn⟩
  rw [(rdt_cyc_none n).1] at hn
  simp at hn

/-- Claim C6 (amended): on every acyclic dependency graph — witnessed by
a rank function that strictly decreases from each part to the parts
listed in its `after` edges being ranked higher, i.e. each dependent
ranks strictly below every part it declares — the reverse-dependency
computation terminates once the recursion depth exceeds the starting
part's rank; on a cyclic graph it need not terminate (see the
counterexample). -/
theorem c6_terminates_acyclic (cfg : Config) (rank : String → Nat)
    (hr : ∀ qp ∈ cfg.parts, ∀ p ∈ qp.after, rank qp.name < rank p) :
    ∀ (n : Nat) (p : String), rank p < n → (rdtFuel cfg n p).isSome = true := by
  intro n
  induction n with
  | zero => intro p hp; exact absurd hp (Nat.not_lt_zero _)
  | succ n ih =>
    intro p hp
    have hdep : ∀ q ∈ partDependentsList cfg p, rank q < rank p := by
      intro q hq
      simp only [partDependentsList, List.mem_map, List.mem_filter] at hq
      obtain ⟨qp, ⟨hqp, hmem⟩, rfl⟩ := hq
      exact hr qp hqp p (by simpa using hmem)
    show (unionSteps (rdtFuel cfg n) (partDependentsList cfg p)
        (some (partDependentsList cfg p).toFinset)).isSome = true
    rw [unionSteps_isSome_iff]
    intro d hd
    have hdp := hdep d hd
    exact ih d (by omega)

/-- Claim C6 (amended), witness: the chain `a after b after c` is
acyclic, and the computation for `c` succeeds with depth 3. -/
theorem c6_terminates_acyclic_witness : (rdtFuel cfgChain 3 "c").isSome = true :=
  c6_terminates_acyclic cfgChain
    (fun s => if s = "c" then 2 else if s = "b" then 1 else 0)
    (by decide) 3 "c" (by decide)

lemma rdt_complete (cfg : Config) :
    ∀ (n : Nat) (p : String) (s : Finset String),
      rdtFuel cfg n p = some s →
      ∀ q, Relation.TransGen (depStep cfg) p q → q ∈ s := by
  intro n
  induction n with
  | zero => intro p s h; simp [rdtFuel] at h
  | succ n ih =>
    intro p s h q hq
    have hsub := unionSteps_some_sub (rdtFuel cfg n) (partDependentsList cfg p)
      (partDependentsList cfg p).toFinset s h
    rw [Relation.TransGen.head'_iff] at hq
    obtain ⟨b, hpb, hbq⟩ := hq
    rcases Relation.ReflTransGen.cases_head hbq with rfl | ⟨c, hbc, hcq⟩
    · exact hsub.1 (List.mem_toFinset.mpr hpb)
    · obtain ⟨sb, hsb, hsbs⟩ := hsub.2 b hpb
      exact hsbs (ih b sb hsb q (Relation.TransGen.head' hbc hcq))

lemma depStep_target_mem (cfg : Config) (a q : String) (h : depStep cfg a q) :
    ∃ qp ∈ cfg.parts, qp.name = q := by
  simp only [depStep, partDependentsList, List.mem_map, List.mem_filter] at h
  obtain ⟨qp, ⟨hqp, _⟩, rfl⟩ := h
  exact ⟨qp, hqp, rfl⟩

lemma cleanPartEvents_named (cfg : Config) (fuel : Nat) (names : List String)
    (step : Option String) (p : BuildPart) (hne : names ≠ []) (hpn : p.name ∈ names)
    (evs1 : List (String × Option String))
    (h : cleanPartEvents cfg fuel names step p = some evs1) :
    ∃ deps, rdtFuel cfg fuel p.name = some deps ∧
      (p.name, step) ∈ evs1 ∧
      ∀ q ∈ cfg.parts, q.name ∈ deps → (q.name, step) ∈ evs1 := by
  unfold cleanPartEvents at h
  rw [if_neg hne, if_pos hpn] at h
  rcases hr : rdtFuel cfg fuel p.name with _ | deps
  · rw [hr] at h; simp at h
  · rw [hr] at h
    simp only [Option.map_some', Option.some.injEq] at h
    refine ⟨deps, rfl, ?_, ?_⟩
    · rw [← h]; exact List.mem_cons_self _ _
    · intro q hq hqd
      rw [← h]
      refine List.mem_cons_of_mem _ ?_
      exact List.mem_map.mpr ⟨q, List.mem_filter.mpr ⟨hq, by simpa using hqd⟩, rfl⟩

lemma cleanEvents_cover (cfg : Config) (fuel : Nat) (names : List String)
    (step : Option String) :
    ∀ (l : List BuildPart) (evs : List (String × Option String)),
      cleanEvents cfg fuel names step l = some evs →
      ∀ p ∈ l, ∃ evs1, cleanPartEvents cfg fuel names step p = some evs1 ∧
        ∀ x ∈ evs1, x ∈ evs := by
  intro l
  induction l with
  | nil => intro evs h p hp; simp at hp
  | cons hd tl ih =>
    intro evs h p hp
    simp only [cleanEvents] at h
    rcases h1 : cleanPartEvents cfg fuel names step hd with _ | evs1
    · rw [h1] at h; simp at h
    · rw [h1] at h
      simp only [Option.some_bind] at h
      rcases h2 : cleanEvents cfg fuel names step tl with _ | evs2
      · rw [h2] at h; simp at h
      · rw [h2] at h
        simp only [Option.map_some', Option.some.injEq] at h
        rcases List.mem_cons.mp hp with rfl | hp2
        · exact ⟨evs1, h1, fun x hx => by rw [← h]; exact List.mem_append_left _ hx⟩
        · obtain ⟨e1, he1, hsubx⟩ := ih evs2 h2 p hp2
          exact ⟨e1, he1, fun x hx => by
            rw [← h]; exact List.mem_append_right _ (hsubx x hx)⟩

/-- Claim C5: a clean invocation with a non-empty list of valid part
names cleans each named part and, for the same step argument, every part
in its transitive reverse-dependent set — every part that directly or
indirectly declares the named part as a prerequisite. -/
theorem c5_clean_reverse_dependents (cfg : Config) (fuel : Nat)
    (names : List String) (step : Option String)
    (evs : List (String × Option String))
    (h1 : names ≠ [])
    (h2 : ∀ x ∈ names, x ∈ cfg.parts.map BuildPart.name)
    (h3 : cleanModel cfg fuel names step = some evs) :
    ∀ pn ∈ names, (pn, step) ∈ evs ∧
      ∀ q, Relation.TransGen (depStep cfg) pn q → (q, step) ∈ evs := by
  have hval : ¬ (names ≠ [] ∧ ¬ (∀ x ∈ names, x ∈ cfg.parts.map BuildPart.name)) := by
    push_neg
    intro _
    exact h2
  unfold cleanModel at h3
  rw [if_neg hval] at h3
  intro pn hpn
  obtain ⟨p, hp, rfl⟩ : ∃ p ∈ cfg.parts, p.name = pn := by
    have hm := h2 pn hpn
    simpa [List.mem_map] using hm
  obtain ⟨evs1, he1, hsub⟩ := cleanEvents_cover cfg fuel names step cfg.parts evs h3 p hp
  obtain ⟨deps, hdeps, hmem, hdepsmem⟩ :=
    cleanPartEvents_named cfg fuel names step p h1 hpn evs1 he1
  refine ⟨hsub _ hmem, ?_⟩
  intro q hq
  have hqdeps : q ∈ deps := rdt_complete cfg fuel p.name deps hdeps q hq
  obtain ⟨b, _, hbq⟩ := Relation.TransGen.tail'_iff.mp hq
  obtain ⟨qp, hqp, rfl⟩ := depStep_target_mem cfg b q hbq
  exact hsub _ (hdepsmem qp hqp hqdeps)

/-- Claim C5, witness: cleaning `c` in the chain `a after b after c`
also cleans `a` (a transitive reverse dependent), though only `c` was
named. -/
theorem c5_clean_reverse_dependents_witness :
    ("c", (none : Option String)) ∈
      ([("c", none), ("a", none), ("b", none)] : List (String × Option String)) ∧
    ("a", (none : Option String)) ∈
      ([("c", none), ("a", none), ("b", none)] : List (String × Option String)) := by
  have h := c5_clean_reverse_dependents cfgChain 5 ["c"] none
    [("c", none), ("a", none), ("b", none)] (by decide) (by decide) (by decide)
  have hc := h "c" (by decide)
  refine ⟨hc.1, hc.2 "a" ?_⟩
  have hd1 : depStep cfgChain "c" "b" := by decide
  have hd2 : depStep cfgChain "b" "a" := by decide
  exact Relation.TransGen.head hd1 (Relation.TransGen.single hd2)
